import Mathlib

/-!
Verification of the `ssh-kim-cli` SSH key manager core (`SSHKeyManager`).

The development shallowly embeds the manager's core operations:

* `detectKeyType` — the key-type classifier (substring match, fixed order);
* the record store: `loadKeys` / `saveKeys` over an explicit `StoreState`
  (in-memory cache, file state, and counters of file reads/writes so that
  "no file I/O" claims are expressible);
* `editKey` / `deleteKey` / `importFromFile` / `importFromDirectory` /
  `importFromScan`, each translated statement-by-statement from the source,
  with user prompts, fresh-id generation, clock reads, and the
  decrypt/parse and serialize/encrypt steps passed in as explicit
  parameters (`dec`, `enc`, `idGen`, `now`, ...);
* the encryption envelope `encryptData` / `decryptData`: hex encoding,
  the `iv:ciphertext` string format, PKCS#7 padding and CBC chaining are
  modelled concretely; the AES-256 block permutation itself (an external
  library primitive, `crypto.createCipheriv`) is abstracted as a
  `CipherFamily`: a keyed block map with an inverse;
* `deriveKeyFromPassword` / `getMachineKey`, with SHA-256 (an external
  library primitive) abstracted as an arbitrary hash function `H`.

JavaScript truthiness checks on option strings (`if (options.name)`,
`keyData.created || now`, ...) are modelled explicitly: an absent field is
`none`, and a present-but-empty string is falsy.
-/

namespace SshKim

/-! ## Key type classifier (source: `detectKeyType`) -/

/-- Whether `pat` is a prefix of `s` (character lists). -/
def prefixChars : List Char → List Char → Bool
  | [], _ => true
  | _ :: _, [] => false
  | c :: cs, d :: ds => c == d && prefixChars cs ds

/-- Whether `pat` occurs as a contiguous run inside `s` (character lists). -/
def hasSub (pat : List Char) : List Char → Bool
  | [] => pat.isEmpty
  | d :: ds => prefixChars pat (d :: ds) || hasSub pat ds

/-- JavaScript `String.prototype.includes`: substring containment. -/
def containsStr (s pat : String) : Bool :=
  hasSub pat.toList s.toList

/-- Source `detectKeyType(keyContent)`: four substring tests in source order,
`Unknown` when none matches. -/
def detectKeyType (keyContent : String) : String :=
  if containsStr keyContent "ssh-rsa" then "RSA"
  else if containsStr keyContent "ssh-dss" then "DSA"
  else if containsStr keyContent "ecdsa-sha2" then "ECDSA"
  else if containsStr keyContent "ssh-ed25519" then "Ed25519"
  else "Unknown"

/-! ## Data model -/

/-- One stored credential, with the source's field names.  Timestamps are the
ISO strings the source stores. -/
structure KeyRecord where
  id : String
  name : String
  tag : Option String
  key : String
  key_type : String
  created : String
  last_modified : String
deriving DecidableEq

/-- The on-disk state of the keys file: absent, present but unreadable
(`fs.readFile` raises), or present with the given contents. -/
inductive FileState
  | absent
  | unreadable
  | content (data : String)
deriving DecidableEq

/-- Process state of the store: the in-memory cache (`this.keysCache`), the
file, and counters of performed file reads and successful file writes (so
that "no file I/O happens" is a provable statement). -/
structure StoreState where
  keysCache : Option (List KeyRecord)
  file : FileState
  reads : Nat
  writes : Nat
deriving DecidableEq

/-! ## Load and save (source: `loadKeys`, `saveKeys`)

`dec` stands for the fallible composite `decryptData` + `JSON.parse` on the
file contents (`none` = that step raised), `enc` for `JSON.stringify` +
`encryptData`.  `writeOk` tells whether `fs.writeFile` succeeds; on a failed
write the file is left in an arbitrary caller-chosen state `failFile`
(a non-atomic overwrite can leave anything behind). -/

/-- Source `loadKeys()`: cache hit returns the cache with no I/O; an absent
file, a failed read, and a failed decrypt/parse all set the cache to `[]`;
a successful read populates the cache with the parsed collection. -/
def loadKeys (dec : String → Option (List KeyRecord)) (s : StoreState) :
    StoreState × List KeyRecord :=
  match s.keysCache with
  | some c => (s, c)
  | none =>
    match s.file with
    | FileState.absent => ({ s with keysCache := some [] }, [])
    | FileState.unreadable =>
        ({ s with keysCache := some [], reads := s.reads + 1 }, [])
    | FileState.content d =>
        match dec d with
        | some ks => ({ s with keysCache := some ks, reads := s.reads + 1 }, ks)
        | none => ({ s with keysCache := some [], reads := s.reads + 1 }, [])

/-- Source `saveKeys(keys)`: encrypt and write, and only after the write
succeeded assign `this.keysCache = keys`.  Returns the new state and whether
the write succeeded. -/
def saveKeys (enc : List KeyRecord → String) (writeOk : Bool)
    (failFile : FileState) (s : StoreState) (keys : List KeyRecord) :
    StoreState × Bool :=
  if writeOk then
    ({ keysCache := some keys, file := FileState.content (enc keys),
       reads := s.reads, writes := s.writes + 1 }, true)
  else
    ({ s with file := failFile }, false)

/-! ## Edit and delete (source: `editKey`, `deleteKey`) -/

/-- The `options` argument of `editKey` (its `name`, `tag` and `content`
properties); `none` models an absent (JS `undefined`) option. -/
structure EditOptions where
  name : Option String
  tag : Option String
  content : Option String
deriving DecidableEq

/-- JS truthiness of an option string: absent and empty are falsy. -/
def truthy : Option String → Bool
  | none => false
  | some s => s ≠ ""

/-- The `updates` object accumulated by `editKey`: each field is `some v` iff
the corresponding property was set on `updates`.  For `tag` the stored value
may itself be `null` (`options.tag || null`). -/
structure Updates where
  name : Option String
  tag : Option (Option String)
  key : Option String
deriving DecidableEq

/-- Source `editKey`, non-interactive branch: `if (options.name)
updates.name = options.name; if (options.tag !== undefined) updates.tag =
options.tag || null; if (options.content) updates.key = options.content`. -/
def buildUpdates (o : EditOptions) : Updates :=
  { name := match o.name with
      | some n => if n = "" then none else some n
      | none => none
    tag := match o.tag with
      | some t => some (if t = "" then none else some t)
      | none => none
    key := match o.content with
      | some c => if c = "" then none else some c
      | none => none }

/-- Source `Object.assign(keys[keyIndex], updates, { last_modified: now })`:
overwrite exactly the properties present on `updates`, then stamp
`last_modified`. -/
def applyUpdates (k : KeyRecord) (u : Updates) (now : String) : KeyRecord :=
  { k with
    name := u.name.getD k.name
    tag := match u.tag with
      | some t => t
      | none => k.tag
    key := u.key.getD k.key
    last_modified := now }

inductive EditResult
  | notFound
  | edited
  | saveError
deriving DecidableEq

/-- Source `editKey(id, options)`.  The interactive branch (taken when every
option is falsy) applies `iUpd`, the updates the prompts would produce; the
non-interactive branch applies `buildUpdates o`.  After `Object.assign` the
cached array already holds the updated record (the source mutates the cached
array in place), then `saveKeys` runs. -/
def editKey (dec : String → Option (List KeyRecord))
    (enc : List KeyRecord → String) (writeOk : Bool) (failFile : FileState)
    (o : EditOptions) (iUpd : Updates) (now : String) (id : String)
    (s : StoreState) : StoreState × EditResult :=
  let p := loadKeys dec s
  let ks := p.2
  let i := ks.findIdx fun k => k.id == id
  if h : i < ks.length then
    let u := if !truthy o.name && !truthy o.tag && !truthy o.content
             then iUpd else buildUpdates o
    let newKs := ks.set i (applyUpdates (ks.get ⟨i, h⟩) u now)
    let s₂ := { p.1 with keysCache := some newKs }
    let q := saveKeys enc writeOk failFile s₂ newKs
    (q.1, if q.2 then EditResult.edited else EditResult.saveError)
  else
    (p.1, EditResult.notFound)

inductive DeleteResult
  | notFound
  | cancelled
  | deleted
  | saveError
deriving DecidableEq

/-- Source `deleteKey(id, options)`: not-found check first, then the
confirmation prompt (skipped with `--force`; `confirm` is the user's
answer), then `splice` on the cached array and one `saveKeys`. -/
def deleteKey (dec : String → Option (List KeyRecord))
    (enc : List KeyRecord → String) (writeOk : Bool) (failFile : FileState)
    (force confirm : Bool) (id : String) (s : StoreState) :
    StoreState × DeleteResult :=
  let p := loadKeys dec s
  let ks := p.2
  let i := ks.findIdx fun k => k.id == id
  if i < ks.length then
    if !force && !confirm then (p.1, DeleteResult.cancelled)
    else
      let newKs := ks.eraseIdx i
      let s₂ := { p.1 with keysCache := some newKs }
      let q := saveKeys enc writeOk failFile s₂ newKs
      (q.1, if q.2 then DeleteResult.deleted else DeleteResult.saveError)
  else
    (p.1, DeleteResult.notFound)

/-! ## Import paths (source: `importFromFile`, `importFromDirectory`,
`importFromScan`)

Fresh ids (`crypto.randomUUID`) are modelled by an id supply `idGen : Nat →
String` indexed by how many ids the operation has generated so far; the
clock is the parameter `now`. -/

/-- One element of the parsed import file (`data.keys` entry): the source
reads `name`, `tag`, `key`, `key_type`, `created` off it, each possibly
absent. -/
structure ImportKeyData where
  name : String
  tag : Option String
  key : String
  key_type : Option String
  created : Option String
deriving DecidableEq

/-- JS `o || d` for an option string: present and non-empty wins, else `d`. -/
def jsOrStr : Option String → String → String
  | some s, d => if s = "" then d else s
  | none, d => d

/-- JS `o || null` for an option string. -/
def jsOrNull : Option String → Option String
  | some s => if s = "" then none else some s
  | none => none

/-- The record `importFromFile` builds for a non-duplicate candidate
(`id` fresh, `key_type` kept or classified, `created` kept or stamped,
`last_modified` stamped). -/
def mkImported (idGen : Nat → String) (now : String) (n : Nat)
    (kd : ImportKeyData) : KeyRecord :=
  { id := idGen n
    name := kd.name
    tag := jsOrNull kd.tag
    key := kd.key
    key_type := jsOrStr kd.key_type (detectKeyType kd.key)
    created := jsOrStr kd.created now
    last_modified := now }

/-- The candidate loop of `importFromFile`: the duplicate test
`existingKeys.some(...)` runs against `existing`, the same array that
`existingKeys.push(newKey)` extends, so later candidates are also compared
with records appended earlier in the batch. -/
def importLoop (idGen : Nat → String) (now : String) :
    List ImportKeyData → List KeyRecord → Nat → Nat → Nat →
    List KeyRecord × Nat × Nat
  | [], existing, _, imp, dup => (existing, imp, dup)
  | kd :: rest, existing, n, imp, dup =>
    if existing.any fun ex => ex.key == kd.key || ex.name == kd.name then
      importLoop idGen now rest existing n imp (dup + 1)
    else
      importLoop idGen now rest (existing ++ [mkImported idGen now n kd])
        (n + 1) (imp + 1) dup

inductive ImportResult
  | done (imported duplicates : Nat)
  | failed
deriving DecidableEq

/-- Source `importFromFile(filePath, password)`.  Reading the import file,
the optional password decryption, and `JSON.parse` are summarized by
`parsed` (`none` = that step raised and the surrounding catch aborted with
nothing mutated).  After the loop a single `saveKeys` commits the batch. -/
def importFromFile (dec : String → Option (List KeyRecord))
    (enc : List KeyRecord → String) (writeOk : Bool) (failFile : FileState)
    (idGen : Nat → String) (now : String)
    (parsed : Option (List ImportKeyData)) (s : StoreState) :
    StoreState × ImportResult :=
  match parsed with
  | none => (s, ImportResult.failed)
  | some kds =>
    let p := loadKeys dec s
    let r := importLoop idGen now kds p.2 0 0 0
    let s₂ := { p.1 with keysCache := some r.1 }
    let q := saveKeys enc writeOk failFile s₂ r.1
    (q.1, if q.2 then ImportResult.done r.2.1 r.2.2 else ImportResult.failed)

/-- The record `importFromDirectory` builds from a readable `.pub` file. -/
def mkDirRecord (idGen : Nat → String) (now : String) (n : Nat)
    (nm content : String) : KeyRecord :=
  { id := idGen n
    name := nm
    tag := none
    key := content.trim
    key_type := detectKeyType content
    created := now
    last_modified := now }

/-- The per-file loop of `importFromDirectory`: an unreadable file is
skipped (its read raised inside the try, before an id was generated), a
readable one is appended unconditionally. -/
def dirLoop (idGen : Nat → String) (now : String) :
    List (String × Option String) → List KeyRecord → Nat → Nat →
    List KeyRecord × Nat
  | [], ks, _, imp => (ks, imp)
  | (nm, some c) :: rest, ks, n, imp =>
    dirLoop idGen now rest (ks ++ [mkDirRecord idGen now n nm c]) (n + 1)
      (imp + 1)
  | (_, none) :: rest, ks, n, imp => dirLoop idGen now rest ks n imp

/-- Source `importFromDirectory(dirPath)`: `dirFiles` is the directory
listing paired with each file's readable content (`none` = read raises).
Only `.pub` files are considered; with none present the function returns
before loading or saving.  No duplicate check anywhere. -/
def importFromDirectory (dec : String → Option (List KeyRecord))
    (enc : List KeyRecord → String) (writeOk : Bool) (failFile : FileState)
    (idGen : Nat → String) (now : String)
    (dirFiles : List (String × Option String)) (s : StoreState) :
    StoreState × Nat :=
  let pubFiles := dirFiles.filter fun f => f.1.endsWith ".pub"
  if pubFiles.isEmpty then (s, 0)
  else
    let p := loadKeys dec s
    let r := dirLoop idGen now pubFiles p.2 0 0
    let s₂ := { p.1 with keysCache := some r.1 }
    let q := saveKeys enc writeOk failFile s₂ r.1
    (q.1, r.2)

/-- A key found by `scanCommonLocations`: file name, trimmed content, and
the type classified from the untrimmed content. -/
structure ScannedKey where
  name : String
  content : String
  type : String
deriving DecidableEq

/-- The record `importFromScan` builds from a selected scanned key. -/
def mkScanRecord (idGen : Nat → String) (now : String) (n : Nat)
    (sk : ScannedKey) : KeyRecord :=
  { id := idGen n
    name := sk.name
    tag := none
    key := sk.content
    key_type := sk.type
    created := now
    last_modified := now }

/-- The selected-key loop of `importFromScan`: every selected key is
appended unconditionally. -/
def scanLoop (idGen : Nat → String) (now : String) :
    List ScannedKey → List KeyRecord → Nat → List KeyRecord × Nat
  | [], ks, imp => (ks, imp)
  | sk :: rest, ks, imp =>
    scanLoop idGen now rest
      (ks ++ [mkScanRecord idGen now (imp) sk]) (imp + 1)

/-- Source `importFromScan()`: `scanned` are the keys the scan found,
`selected` the user's checkbox selection (a subset of `scanned`); with an
empty scan or empty selection the function returns before loading or
saving.  No duplicate check anywhere. -/
def importFromScan (dec : String → Option (List KeyRecord))
    (enc : List KeyRecord → String) (writeOk : Bool) (failFile : FileState)
    (idGen : Nat → String) (now : String)
    (scanned selected : List ScannedKey) (s : StoreState) :
    StoreState × Nat :=
  if scanned.isEmpty then (s, 0)
  else if selected.isEmpty then (s, 0)
  else
    let p := loadKeys dec s
    let r := scanLoop idGen now selected p.2 0
    let s₂ := { p.1 with keysCache := some r.1 }
    let q := saveKeys enc writeOk failFile s₂ r.1
    (q.1, r.2)

/-! ## Envelope cipher (source: `encryptData`, `decryptData`)

Byte sequences are `List Nat` with entries below 256.  The envelope format,
hex encoding, the `:` separator and its parsing by `split(':')`, PKCS#7
padding, and CBC chaining are modelled concretely; the AES-256 block
permutation provided by `crypto.createCipheriv('aes-256-cbc', ...)` is
abstracted as a `CipherFamily` (a keyed 16-byte block map together with its
inverse).  The plaintext is the UTF-8 byte sequence of the stored string. -/

/-- All entries are bytes. -/
def ValidBytes (l : List Nat) : Prop := ∀ b ∈ l, b < 256

instance (l : List Nat) : Decidable (ValidBytes l) :=
  inferInstanceAs (Decidable (∀ b ∈ l, b < 256))

/-- Lower-case hex digit of a nibble (as produced by `Buffer.toString('hex')`). -/
def hexChar (n : Nat) : Char :=
  if n < 10 then Char.ofNat (48 + n) else Char.ofNat (87 + n)

/-- Value of a lower-case hex digit. -/
def hexVal (c : Char) : Nat :=
  if 97 ≤ c.toNat then c.toNat - 87 else c.toNat - 48

/-- Hex encoding of a byte sequence, two digits per byte. -/
def bytesToHex : List Nat → List Char
  | [] => []
  | b :: bs => hexChar (b / 16) :: hexChar (b % 16) :: bytesToHex bs

/-- Hex decoding (`Buffer.from(str, 'hex')` on well-formed input); `none`
on odd length models the failure path. -/
def hexToBytes : List Char → Option (List Nat)
  | [] => some []
  | c1 :: c2 :: rest =>
    (hexToBytes rest).map fun bs => (16 * hexVal c1 + hexVal c2) :: bs
  | [_] => none

/-- JavaScript `String.prototype.split(':')` on a character list. -/
def splitOnColon : List Char → List (List Char)
  | [] => [[]]
  | c :: rest =>
    if c = ':' then [] :: splitOnColon rest
    else
      match splitOnColon rest with
      | [] => [[c]]
      | s :: ss => (c :: s) :: ss

/-- Pointwise XOR of two byte sequences. -/
def xorB (a b : List Nat) : List Nat := List.zipWith (fun x y => x ^^^ y) a b

/-- PKCS#7 padding to a multiple of the 16-byte block size (applied by
`cipher.final`). -/
def pad16 (l : List Nat) : List Nat :=
  let p := 16 - l.length % 16
  l ++ List.replicate p p

/-- PKCS#7 unpadding (checked by `decipher.final`; `none` models the padding
error it raises). -/
def unpad16 (l : List Nat) : Option (List Nat) :=
  match l.reverse with
  | [] => none
  | p :: _ =>
    if 1 ≤ p ∧ p ≤ 16 ∧ p ≤ l.length ∧
        (l.drop (l.length - p)).all fun x => x = p then
      some (l.take (l.length - p))
    else none

/-- Split a byte sequence into 16-byte blocks (the last block may be short
if the length is not a multiple of 16). -/
def chunk16 (l : List Nat) : List (List Nat) :=
  if h : l = [] then []
  else l.take 16 :: chunk16 (l.drop 16)
termination_by l.length
decreasing_by
  have hl : l.length ≠ 0 := fun hz => h (List.eq_nil_of_length_eq_zero hz)
  simp only [List.length_drop]
  omega

/-- The external AES-256 block primitive, abstracted: a keyed map on
16-byte blocks together with its inverse, defined for 32-byte keys. -/
structure CipherFamily where
  encB : List Nat → List Nat → List Nat
  decB : List Nat → List Nat → List Nat
  encB_length : ∀ key b, key.length = 32 → b.length = 16 →
    (encB key b).length = 16
  encB_valid : ∀ key b, key.length = 32 → b.length = 16 → ValidBytes b →
    ValidBytes (encB key b)
  decB_encB : ∀ key b, key.length = 32 → b.length = 16 → ValidBytes b →
    decB key (encB key b) = b

/-- CBC encryption of a block sequence: each plaintext block is XORed with
the previous ciphertext block (initially the IV) before the block cipher. -/
def cbcEnc (F : CipherFamily) (key : List Nat) :
    List Nat → List (List Nat) → List (List Nat)
  | _, [] => []
  | prev, b :: bs =>
    let c := F.encB key (xorB b prev)
    c :: cbcEnc F key c bs

/-- CBC decryption of a block sequence. -/
def cbcDec (F : CipherFamily) (key : List Nat) :
    List Nat → List (List Nat) → List (List Nat)
  | _, [] => []
  | prev, c :: cs => xorB (F.decB key c) prev :: cbcDec F key c cs

/-- Source `encryptData(data)`: pad, CBC-encrypt under the active key with
the fresh 16-byte `iv`, and return `iv.toString('hex') + ':' +
encrypted`. -/
def encryptData (F : CipherFamily) (key iv data : List Nat) : List Char :=
  bytesToHex iv ++ ':' :: bytesToHex ((cbcEnc F key iv (chunk16 (pad16 data))).flatten)

/-- Source `decryptData(encryptedData)`: split on `':'`, hex-decode the IV
(`parts[0]`) and ciphertext (`parts[1]`), CBC-decrypt, unpad.  `none`
models every raising path (missing separator, bad hex, padding error). -/
def decryptData (F : CipherFamily) (key : List Nat) (encryptedData : List Char) :
    Option (List Nat) :=
  match splitOnColon encryptedData with
  | p0 :: p1 :: _ =>
    match hexToBytes p0, hexToBytes p1 with
    | some iv, some ct => unpad16 (cbcDec F key iv (chunk16 ct)).flatten
    | _, _ => none
  | _ => none

/-! ## Key derivation (source: `deriveKeyFromPassword`, `getMachineKey`)

SHA-256 is external library code; it is abstracted as `H : List Char →
List Nat` mapping the hashed character sequence to the digest bytes.  The
source-level content is which string each path feeds to the hash. -/

/-- The password path's domain-separation suffix (source string literal). -/
def passwordSalt : List Char := String.toList "ssh-kim-password-salt"

/-- The machine path's domain-separation suffix (source string literal). -/
def machineSalt : List Char := String.toList "ssh-kim-machine-key"

/-- Source `deriveKeyFromPassword(password)`: hash of
`password + 'ssh-kim-password-salt'`. -/
def deriveKeyFromPassword (H : List Char → List Nat) (password : List Char) :
    List Nat :=
  H (password ++ passwordSalt)

/-- Source `getMachineKey()`: hash of `machineId + 'ssh-kim-machine-key'`. -/
def getMachineKey (H : List Char → List Nat) (machineId : List Char) :
    List Nat :=
  H (machineId ++ machineSalt)

/-! ## Spec-side definitions

These follow the words of spec sentences (or their amendments) and are
compared with the source-translated functions above. -/

/-- Accumulator of the import merge: the collection so far, how many fresh
ids have been generated, and the two counters. -/
structure MergeAcc where
  coll : List KeyRecord
  fresh : Nat
  imported : Nat
  duplicates : Nat
deriving DecidableEq

/-- The amended import-merge policy, following the amended claim's words:
candidates are folded in order; a candidate is a duplicate exactly when some
record of the current, evolving collection has equal key material or equal
name; a non-duplicate is appended, built from the next fresh id. -/
def importMergeSpec (idGen : Nat → String) (now : String)
    (start : List KeyRecord) (kds : List ImportKeyData) :
    List KeyRecord × Nat × Nat :=
  let a := kds.foldl
    (fun (a : MergeAcc) kd =>
      if a.coll.any fun ex => ex.key == kd.key || ex.name == kd.name then
        { a with duplicates := a.duplicates + 1 }
      else
        { coll := a.coll ++ [mkImported idGen now a.fresh kd]
          fresh := a.fresh + 1
          imported := a.imported + 1
          duplicates := a.duplicates })
    { coll := start, fresh := 0, imported := 0, duplicates := 0 }
  (a.coll, a.imported, a.duplicates)

/-- The single fold step of the evolving import-merge policy. -/
def mergeStep (idGen : Nat → String) (now : String) (a : MergeAcc)
    (kd : ImportKeyData) : MergeAcc :=
  if a.coll.any fun ex => ex.key == kd.key || ex.name == kd.name then
    { a with duplicates := a.duplicates + 1 }
  else
    { coll := a.coll ++ [mkImported idGen now a.fresh kd]
      fresh := a.fresh + 1
      imported := a.imported + 1
      duplicates := a.duplicates }

/-- The `.pub` entries of a directory listing that are readable, paired with
their contents. -/
def readablePubs (dirFiles : List (String × Option String)) :
    List (String × String) :=
  (dirFiles.filter fun f => f.1.endsWith ".pub").filterMap
    fun f => f.2.map fun c => (f.1, c)

/-- Records that a directory import appends: one per readable `.pub` file,
ids numbered consecutively from `n`. -/
def dirRecords (idGen : Nat → String) (now : String) :
    Nat → List (String × String) → List KeyRecord
  | _, [] => []
  | n, (nm, c) :: rest =>
    mkDirRecord idGen now n nm c :: dirRecords idGen now (n + 1) rest

/-- Records that a scan import appends: one per selected key, ids numbered
consecutively from `n`. -/
def scanRecords (idGen : Nat → String) (now : String) :
    Nat → List ScannedKey → List KeyRecord
  | _, [] => []
  | n, sk :: rest =>
    mkScanRecord idGen now n sk :: scanRecords idGen now (n + 1) rest

/-! ## Concrete fixtures used by witnesses and counterexamples -/

/-- The identity block map: a legitimate `CipherFamily` instance. -/
def trivialCipher : CipherFamily :=
  { encB := fun _ b => b
    decB := fun _ b => b
    encB_length := fun _ _ _ h => h
    encB_valid := fun _ _ _ _ hv => hv
    decB_encB := fun _ _ _ _ _ => rfl }

/-- A decrypt/parse stub that always fails. -/
def dec0 : String → Option (List KeyRecord) := fun _ => none

/-- A serialize/encrypt stub. -/
def enc0 : List KeyRecord → String := fun _ => "enc"

/-- A deterministic id supply. -/
def idGen0 : Nat → String := fun n => String.append "id-" (toString n)

/-- A sample stored record. -/
def rec0 : KeyRecord :=
  { id := "id-0"
    name := "GitHub"
    tag := some "github"
    key := "ssh-rsa AAAA"
    key_type := "RSA"
    created := "2020-01-01"
    last_modified := "2020-01-01" }

/-- A sample import candidate carrying its own `created` timestamp. -/
def kd0 : ImportKeyData :=
  { name := "GitHub"
    tag := none
    key := "ssh-rsa AAAA"
    key_type := none
    created := some "2020-01-01" }

/-- A store whose cache holds the empty collection. -/
def s0 : StoreState :=
  { keysCache := some [], file := FileState.absent, reads := 0, writes := 0 }

/-- An injective, 32-entry-valued hash usable to instantiate `H`. -/
def witnessHash (x : List Char) : List Nat :=
  Encodable.encode (x.map Char.toNat) :: List.replicate 31 0

/-- A one-record store with cache present. -/
def s1 : StoreState :=
  { keysCache := some [rec0], file := FileState.content "enc",
    reads := 0, writes := 0 }

/-- A cache-less store with the given file state. -/
def sN (f : FileState) : StoreState :=
  { keysCache := none, file := f, reads := 0, writes := 0 }

/-- A decrypt/parse stub that always succeeds with `[rec0]`. -/
def dec1 : String → Option (List KeyRecord) := fun _ => some [rec0]

/-! ## Helper lemmas -/

theorem findIdx_all_false {α : Type} (p : α → Bool) (l : List α)
    (h : ∀ a ∈ l, p a = false) : l.findIdx p = l.length := by
  induction l with
  | nil => rfl
  | cons a t ih =>
    simp [List.findIdx_cons, h a (List.mem_cons_self a t),
      ih fun x hx => h x (List.mem_cons_of_mem a hx)]

theorem charToNat_inj {c d : Char} (h : c.toNat = d.toNat) : c = d := by
  rcases c with ⟨⟨cv, hc⟩, vc⟩
  rcases d with ⟨⟨dv, hd⟩, vd⟩
  simp only [Char.toNat, UInt32.toNat] at h
  subst_vars
  simp_all [Fin.ext_iff]

theorem witnessHash_injective : Function.Injective witnessHash := by
  intro a b h
  simp only [witnessHash, List.cons.injEq] at h
  have h2 : a.map Char.toNat = b.map Char.toNat :=
    Encodable.encode_injective h.1
  have hinj : Function.Injective Char.toNat := fun _ _ hc => charToNat_inj hc
  exact List.map_injective_iff.mpr hinj h2

theorem witnessHash_length (x : List Char) : (witnessHash x).length = 32 := by
  simp [witnessHash]

theorem rec0_found : ([rec0].findIdx fun k => k.id == "id-0") < [rec0].length := by
  decide

theorem dirLoop_eq (idGen : Nat → String) (now : String)
    (files : List (String × Option String)) : ∀ ks n imp,
    dirLoop idGen now files ks n imp =
      (ks ++ dirRecords idGen now n
        (files.filterMap fun f => f.2.map fun c => (f.1, c)),
       imp + (files.filterMap fun f => f.2.map fun c => (f.1, c)).length) := by
  induction files with
  | nil => intro ks n imp; simp [dirLoop, dirRecords]
  | cons f rest ih =>
    intro ks n imp
    obtain ⟨nm, oc⟩ := f
    cases oc with
    | none => simp [dirLoop, ih]
    | some c =>
      simp [dirLoop, ih, dirRecords, List.append_assoc, Prod.mk.injEq]
      try omega

theorem scanLoop_eq (idGen : Nat → String) (now : String)
    (sel : List ScannedKey) : ∀ ks imp,
    scanLoop idGen now sel ks imp =
      (ks ++ scanRecords idGen now imp sel, imp + sel.length) := by
  induction sel with
  | nil => intro ks imp; simp [scanLoop, scanRecords]
  | cons sk rest ih =>
    intro ks imp
    simp [scanLoop, ih, scanRecords, List.append_assoc, Prod.mk.injEq]
    try omega

theorem importMergeSpec_eq_foldl (idGen : Nat → String) (now : String)
    (start : List KeyRecord) (kds : List ImportKeyData) :
    importMergeSpec idGen now start kds =
      (let b := kds.foldl (mergeStep idGen now)
        { coll := start, fresh := 0, imported := 0, duplicates := 0 }
       (b.coll, b.imported, b.duplicates)) := rfl

theorem importLoop_eq_foldl (idGen : Nat → String) (now : String)
    (kds : List ImportKeyData) : ∀ a : MergeAcc,
    importLoop idGen now kds a.coll a.fresh a.imported a.duplicates =
      (let b := kds.foldl (mergeStep idGen now) a
       (b.coll, b.imported, b.duplicates)) := by
  induction kds with
  | nil => intro a; rfl
  | cons kd rest ih =>
    intro a
    simp only [importLoop, List.foldl_cons, mergeStep]
    by_cases h : (a.coll.any fun ex => ex.key == kd.key || ex.name == kd.name) = true
    · simp only [h, if_true]
      exact ih { a with duplicates := a.duplicates + 1 }
    · simp only [Bool.not_eq_true] at h
      simp only [h, Bool.false_eq_true, if_false]
      exact ih { coll := a.coll ++ [mkImported idGen now a.fresh kd]
                 fresh := a.fresh + 1
                 imported := a.imported + 1
                 duplicates := a.duplicates }

theorem mergeStep_counts (idGen : Nat → String) (now : String)
    (kds : List ImportKeyData) : ∀ a : MergeAcc,
    (kds.foldl (mergeStep idGen now) a).imported +
      (kds.foldl (mergeStep idGen now) a).duplicates =
      a.imported + a.duplicates + kds.length := by
  induction kds with
  | nil => intro a; simp
  | cons kd rest ih =>
    intro a
    simp only [List.foldl_cons, List.length_cons]
    rw [ih]
    unfold mergeStep
    by_cases h : (a.coll.any fun ex => ex.key == kd.key || ex.name == kd.name) = true
    · simp only [h, if_true]
      omega
    · simp only [Bool.not_eq_true] at h
      simp only [h, Bool.false_eq_true, if_false]
      omega

/-! ### Envelope cipher lemmas -/

theorem hexVal_hexChar {n : Nat} (h : n < 16) : hexVal (hexChar n) = n := by
  interval_cases n <;> decide

theorem hexChar_ne_colon {n : Nat} (h : n < 16) : hexChar n ≠ ':' := by
  interval_cases n <;> decide

theorem hexToBytes_bytesToHex (bs : List Nat) (h : ValidBytes bs) :
    hexToBytes (bytesToHex bs) = some bs := by
  induction bs with
  | nil => rfl
  | cons b t ih =>
    have hb : b < 256 := h b (List.mem_cons_self b t)
    have ht : ValidBytes t := fun x hx => h x (List.mem_cons_of_mem b hx)
    have h1 : b / 16 < 16 := by omega
    have h2 : b % 16 < 16 := by omega
    simp [bytesToHex, hexToBytes, ih ht, hexVal_hexChar h1, hexVal_hexChar h2]
    omega

theorem colon_not_mem_bytesToHex (bs : List Nat) (h : ValidBytes bs) :
    ':' ∉ bytesToHex bs := by
  induction bs with
  | nil => simp [bytesToHex]
  | cons b t ih =>
    have hb : b < 256 := h b (List.mem_cons_self b t)
    have ht : ValidBytes t := fun x hx => h x (List.mem_cons_of_mem b hx)
    intro hmem
    rcases List.mem_cons.mp hmem with h1 | hmem2
    · exact hexChar_ne_colon (show b / 16 < 16 by omega) h1.symm
    rcases List.mem_cons.mp hmem2 with h2 | hmem3
    · exact hexChar_ne_colon (show b % 16 < 16 by omega) h2.symm
    · exact ih ht hmem3

theorem splitOnColon_no_colon (l : List Char) (h : ':' ∉ l) :
    splitOnColon l = [l] := by
  induction l with
  | nil => rfl
  | cons c t ih =>
    have hc : ¬c = ':' := fun he => h (he ▸ List.mem_cons_self c t)
    have ht : ':' ∉ t := fun hm => h (List.mem_cons_of_mem c hm)
    simp [splitOnColon, hc, ih ht]

theorem splitOnColon_append (a b : List Char) (h : ':' ∉ a) :
    splitOnColon (a ++ ':' :: b) = a :: splitOnColon b := by
  induction a with
  | nil => simp [splitOnColon]
  | cons c t ih =>
    have hc : ¬c = ':' := fun he => h (he ▸ List.mem_cons_self c t)
    have ht : ':' ∉ t := fun hm => h (List.mem_cons_of_mem c hm)
    simp [splitOnColon, hc, ih ht]

theorem chunk16_nil : chunk16 [] = [] := by
  rw [chunk16]
  rfl

theorem chunk16_cons_eq (l : List Nat) (h : l ≠ []) :
    chunk16 l = l.take 16 :: chunk16 (l.drop 16) := by
  rw [chunk16]
  simp [h]

theorem chunk16_flatten (l : List Nat) : (chunk16 l).flatten = l := by
  have H : ∀ n (l : List Nat), l.length ≤ n → (chunk16 l).flatten = l := by
    intro n
    induction n with
    | zero =>
      intro l hl
      have : l = [] := List.eq_nil_of_length_eq_zero (by omega)
      subst this
      simp [chunk16_nil]
    | succ n ih =>
      intro l hl
      by_cases h : l = []
      · subst h; simp [chunk16_nil]
      · rw [chunk16_cons_eq l h, List.flatten_cons]
        have hpos : 0 < l.length := List.length_pos.mpr h
        have hd : (l.drop 16).length ≤ n := by
          simp only [List.length_drop]
          omega
        rw [ih (l.drop 16) hd, List.take_append_drop]
  exact H l.length l le_rfl

theorem chunk16_length_mem (l : List Nat) (h : l.length % 16 = 0) :
    ∀ c ∈ chunk16 l, c.length = 16 := by
  have H : ∀ n (l : List Nat), l.length ≤ n → l.length % 16 = 0 →
      ∀ c ∈ chunk16 l, c.length = 16 := by
    intro n
    induction n with
    | zero =>
      intro l hl _ c hc
      have : l = [] := List.eq_nil_of_length_eq_zero (by omega)
      subst this
      simp [chunk16_nil] at hc
    | succ n ih =>
      intro l hl hmod c hc
      by_cases h0 : l = []
      · subst h0; simp [chunk16_nil] at hc
      · rw [chunk16_cons_eq l h0] at hc
        have hpos : 0 < l.length := List.length_pos.mpr h0
        have h16 : 16 ≤ l.length := by omega
        rcases List.mem_cons.mp hc with h1 | h2
        · subst h1
          simp [List.length_take]
          omega
        · refine ih (l.drop 16) ?_ ?_ c h2
          · simp only [List.length_drop]; omega
          · simp only [List.length_drop]; omega
  exact H l.length l le_rfl h

theorem chunk16_valid_mem (l : List Nat) (hv : ValidBytes l) :
    ∀ c ∈ chunk16 l, ValidBytes c := by
  have H : ∀ n (l : List Nat), l.length ≤ n → ValidBytes l →
      ∀ c ∈ chunk16 l, ValidBytes c := by
    intro n
    induction n with
    | zero =>
      intro l hl _ c hc
      have : l = [] := List.eq_nil_of_length_eq_zero (by omega)
      subst this
      simp [chunk16_nil] at hc
    | succ n ih =>
      intro l hl hlv c hc
      by_cases h0 : l = []
      · subst h0; simp [chunk16_nil] at hc
      · rw [chunk16_cons_eq l h0] at hc
        have hpos : 0 < l.length := List.length_pos.mpr h0
        rcases List.mem_cons.mp hc with h1 | h2
        · subst h1
          exact fun x hx => hlv x (List.take_subset 16 l hx)
        · refine ih (l.drop 16) ?_ (fun x hx => hlv x (List.drop_subset _ _ hx)) c h2
          simp only [List.length_drop]; omega
  exact H l.length l le_rfl hv

theorem chunk16_of_flatten (bs : List (List Nat))
    (h : ∀ b ∈ bs, b.length = 16) : chunk16 bs.flatten = bs := by
  induction bs with
  | nil => simp [chunk16_nil]
  | cons b rest ih =>
    have hb : b.length = 16 := h b (List.mem_cons_self b rest)
    have hne : (b ++ rest.flatten) ≠ [] := by
      intro he
      have : (b ++ rest.flatten).length = 0 := by rw [he]; rfl
      simp [List.length_append, hb] at this
    rw [List.flatten_cons, chunk16_cons_eq _ hne]
    have ht : (b ++ rest.flatten).take 16 = b := by
      have := List.take_left b rest.flatten
      rwa [hb] at this
    have hd : (b ++ rest.flatten).drop 16 = rest.flatten := by
      have := List.drop_left b rest.flatten
      rwa [hb] at this
    rw [ht, hd, ih fun x hx => h x (List.mem_cons_of_mem b hx)]

theorem xorB_length (a b : List Nat) :
    (xorB a b).length = min a.length b.length :=
  List.length_zipWith ..

theorem xorB_xorB (a b : List Nat) (h : a.length = b.length) :
    xorB (xorB a b) b = a := by
  induction a generalizing b with
  | nil => cases b <;> rfl
  | cons x t ih =>
    cases b with
    | nil => simp at h
    | cons y u =>
      simp only [xorB, List.zipWith] at ih ⊢
      rw [Nat.xor_cancel_right]
      rw [ih u (by simpa using h)]

theorem xorB_valid (a : List Nat) : ∀ b : List Nat, ValidBytes a →
    ValidBytes b → ValidBytes (xorB a b) := by
  induction a with
  | nil => intro b _ _ x hx; simp [xorB] at hx
  | cons x t ih =>
    intro b ha hb z hz
    cases b with
    | nil => simp [xorB] at hz
    | cons y u =>
      simp only [xorB, List.zipWith] at hz
      rcases List.mem_cons.mp hz with h1 | h2
      · subst h1
        have hx : x < 256 := ha x (List.mem_cons_self x t)
        have hy : y < 256 := hb y (List.mem_cons_self y u)
        exact Nat.xor_lt_two_pow (n := 8) hx hy
      · exact ih u (fun w hw => ha w (List.mem_cons_of_mem x hw))
          (fun w hw => hb w (List.mem_cons_of_mem y hw)) z h2

theorem cbcEnc_blocks (F : CipherFamily) (key : List Nat)
    (hk : key.length = 32) (blocks : List (List Nat)) : ∀ prev : List Nat,
    prev.length = 16 → ValidBytes prev →
    (∀ b ∈ blocks, b.length = 16 ∧ ValidBytes b) →
    ∀ c ∈ cbcEnc F key prev blocks, c.length = 16 ∧ ValidBytes c := by
  induction blocks with
  | nil => intro prev _ _ _ c hc; simp [cbcEnc] at hc
  | cons b bs ih =>
    intro prev hp hpv hbs c hc
    have hb := hbs b (List.mem_cons_self b bs)
    have hxlen : (xorB b prev).length = 16 := by
      rw [xorB_length, hb.1, hp]; simp
    have hxv : ValidBytes (xorB b prev) := xorB_valid _ _ hb.2 hpv
    have hclen := F.encB_length key _ hk hxlen
    have hcv := F.encB_valid key _ hk hxlen hxv
    simp only [cbcEnc] at hc
    rcases List.mem_cons.mp hc with h1 | h2
    · subst h1; exact ⟨hclen, hcv⟩
    · exact ih (F.encB key (xorB b prev)) hclen hcv
        (fun x hx => hbs x (List.mem_cons_of_mem b hx)) c h2

theorem cbcDec_cbcEnc (F : CipherFamily) (key : List Nat)
    (hk : key.length = 32) (blocks : List (List Nat)) : ∀ prev : List Nat,
    prev.length = 16 → ValidBytes prev →
    (∀ b ∈ blocks, b.length = 16 ∧ ValidBytes b) →
    cbcDec F key prev (cbcEnc F key prev blocks) = blocks := by
  induction blocks with
  | nil => intro prev _ _ _; rfl
  | cons b bs ih =>
    intro prev hp hpv hbs
    have hb := hbs b (List.mem_cons_self b bs)
    have hxlen : (xorB b prev).length = 16 := by
      rw [xorB_length, hb.1, hp]; simp
    have hxv : ValidBytes (xorB b prev) := xorB_valid _ _ hb.2 hpv
    simp only [cbcEnc, cbcDec]
    rw [F.decB_encB key _ hk hxlen hxv]
    rw [xorB_xorB b prev (by rw [hb.1, hp])]
    rw [ih (F.encB key (xorB b prev)) (F.encB_length key _ hk hxlen)
      (F.encB_valid key _ hk hxlen hxv)
      fun x hx => hbs x (List.mem_cons_of_mem b hx)]

theorem pad16_length_mod (l : List Nat) : (pad16 l).length % 16 = 0 := by
  simp only [pad16, List.length_append, List.length_replicate]
  omega

theorem pad16_valid (l : List Nat) (h : ValidBytes l) :
    ValidBytes (pad16 l) := by
  intro x hx
  rcases List.mem_append.mp hx with h1 | h2
  · exact h x h1
  · have hx2 := List.eq_of_mem_replicate h2
    subst hx2
    omega

theorem unpad16_pad16 (l : List Nat) : unpad16 (pad16 l) = some l := by
  have hmod : l.length % 16 < 16 := Nat.mod_lt _ (by omega)
  have hp1 : 1 ≤ 16 - l.length % 16 := by omega
  have hp16 : 16 - l.length % 16 ≤ 16 := by omega
  have hlen : (pad16 l).length = l.length + (16 - l.length % 16) := by
    simp [pad16]
  have hrev : (pad16 l).reverse = (16 - l.length % 16) ::
      (List.replicate (16 - l.length % 16 - 1) (16 - l.length % 16) ++
        l.reverse) := by
    simp only [pad16, List.reverse_append, List.reverse_replicate]
    cases hq : 16 - l.length % 16 with
    | zero => omega
    | succ q =>
      simp [List.replicate_succ]
  have hsub : (pad16 l).length - (16 - l.length % 16) = l.length := by omega
  have hdrop : (pad16 l).drop ((pad16 l).length - (16 - l.length % 16)) =
      List.replicate (16 - l.length % 16) (16 - l.length % 16) := by
    rw [hsub]
    simp only [pad16]
    exact List.drop_left ..
  have htake : (pad16 l).take ((pad16 l).length - (16 - l.length % 16)) = l := by
    rw [hsub]
    simp only [pad16]
    exact List.take_left ..
  have hcond : 1 ≤ 16 - l.length % 16 ∧ 16 - l.length % 16 ≤ 16 ∧
      16 - l.length % 16 ≤ (pad16 l).length ∧
      ((pad16 l).drop ((pad16 l).length - (16 - l.length % 16))).all
        (fun x => x = (16 - l.length % 16)) = true := by
    refine ⟨hp1, hp16, by omega, ?_⟩
    rw [hdrop]
    refine List.all_eq_true.mpr fun x hx => ?_
    simp [List.eq_of_mem_replicate hx]
  simp only [unpad16, hrev]
  rw [if_pos hcond, htake]

/-! ## Claim theorems -/

/-- C1: for every plaintext byte sequence `data` (the UTF-8 bytes of the
stored string), every 32-byte key and every 16-byte IV, decrypting the
envelope produced by `encryptData` with `decryptData` under the same key
returns exactly `data` — for every block cipher family (in particular the
AES-256 primitive the source passes to `createCipheriv`). -/
theorem encryptData_decryptData_roundtrip (F : CipherFamily)
    (key iv data : List Nat) (hk : key.length = 32) (hiv : iv.length = 16)
    (hivv : ValidBytes iv) (hdv : ValidBytes data) :
    decryptData F key (encryptData F key iv data) = some data := by
  have hpadmod := pad16_length_mod data
  have hpadv := pad16_valid data hdv
  have hblocks : ∀ b ∈ chunk16 (pad16 data), b.length = 16 ∧ ValidBytes b :=
    fun b hb => ⟨chunk16_length_mem _ hpadmod b hb,
      chunk16_valid_mem _ hpadv b hb⟩
  have hct : ∀ c ∈ cbcEnc F key iv (chunk16 (pad16 data)),
      c.length = 16 ∧ ValidBytes c :=
    cbcEnc_blocks F key hk _ iv hiv hivv hblocks
  have hctv : ValidBytes (cbcEnc F key iv (chunk16 (pad16 data))).flatten := by
    intro x hx
    obtain ⟨c, hc, hxc⟩ := List.mem_flatten.mp hx
    exact (hct c hc).2 x hxc
  unfold encryptData decryptData
  rw [splitOnColon_append _ _ (colon_not_mem_bytesToHex iv hivv)]
  rw [splitOnColon_no_colon _ (colon_not_mem_bytesToHex _ hctv)]
  simp only [hexToBytes_bytesToHex iv hivv, hexToBytes_bytesToHex _ hctv]
  rw [chunk16_of_flatten _ fun c hc => (hct c hc).1]
  rw [cbcDec_cbcEnc F key hk _ iv hiv hivv hblocks]
  rw [chunk16_flatten (pad16 data)]
  exact unpad16_pad16 data

/-- Witness for C1: the round trip evaluated with the identity block map,
the zero key and IV, and the bytes of `"hi"`. -/
theorem encryptData_decryptData_roundtrip_w :
    decryptData trivialCipher (List.replicate 32 0)
      (encryptData trivialCipher (List.replicate 32 0)
        (List.replicate 16 0) [104, 105]) = some [104, 105] :=
  encryptData_decryptData_roundtrip trivialCipher (List.replicate 32 0)
    (List.replicate 16 0) [104, 105] (by decide) (by decide) (by decide)
    (by decide)

/-- C2: `loadKeys` never raises and covers every branch as stated: a present
cache is returned with the state untouched (no file I/O — the read counter
does not move); an absent file sets the cache to the empty collection and
returns it; a failed read and a failed decrypt/parse likewise set the cache
to the empty collection and return it; a successful read populates the
cache; and the cache is never left partially populated: after any call the
cache holds exactly the returned collection.  (In the embedding every
raising step is an explicit branch, mirroring the source's catch-all.) -/
theorem loadKeys_never_raises (dec : String → Option (List KeyRecord))
    (s : StoreState) :
    (∀ c, s.keysCache = some c → loadKeys dec s = (s, c)) ∧
    (s.keysCache = none → s.file = FileState.absent →
      loadKeys dec s = ({ s with keysCache := some [] }, [])) ∧
    (s.keysCache = none → s.file = FileState.unreadable →
      loadKeys dec s =
        ({ s with keysCache := some [], reads := s.reads + 1 }, [])) ∧
    (∀ d, s.keysCache = none → s.file = FileState.content d → dec d = none →
      loadKeys dec s =
        ({ s with keysCache := some [], reads := s.reads + 1 }, [])) ∧
    (∀ d ks, s.keysCache = none → s.file = FileState.content d →
      dec d = some ks →
      loadKeys dec s =
        ({ s with keysCache := some ks, reads := s.reads + 1 }, ks)) ∧
    (loadKeys dec s).1.keysCache = some (loadKeys dec s).2 := by
  obtain ⟨cache, file, r, w⟩ := s
  refine ⟨?_, ?_, ?_, ?_, ?_, ?_⟩
  · intro c hc
    simp only at hc
    subst hc
    rfl
  · intro hc hf
    simp only at hc hf
    subst hc; subst hf
    rfl
  · intro hc hf
    simp only at hc hf
    subst hc; subst hf
    rfl
  · intro d hc hf hd
    simp only at hc hf
    subst hc; subst hf
    simp [loadKeys, hd]
  · intro d ks hc hf hd
    simp only at hc hf
    subst hc; subst hf
    simp [loadKeys, hd]
  · cases cache with
    | some c => rfl
    | none =>
      cases file with
      | absent => rfl
      | unreadable => rfl
      | content d =>
        cases hd : dec d <;> simp [loadKeys, hd]

/-- Witness for C2: each branch of `loadKeys_never_raises` applied at a
concrete store. -/
theorem loadKeys_never_raises_w :
    loadKeys dec0 s0 = (s0, []) ∧
    loadKeys dec0 (sN FileState.absent) =
      ({ sN FileState.absent with keysCache := some [] }, []) ∧
    loadKeys dec0 (sN FileState.unreadable) =
      ({ sN FileState.unreadable with keysCache := some [], reads := 1 }, []) ∧
    loadKeys dec0 (sN (FileState.content "x")) =
      ({ sN (FileState.content "x") with
          keysCache := some [], reads := 1 }, []) ∧
    loadKeys dec1 (sN (FileState.content "x")) =
      ({ sN (FileState.content "x") with
          keysCache := some [rec0], reads := 1 }, [rec0]) :=
  ⟨(loadKeys_never_raises dec0 s0).1 [] rfl,
   (loadKeys_never_raises dec0 (sN FileState.absent)).2.1 rfl rfl,
   (loadKeys_never_raises dec0 (sN FileState.unreadable)).2.2.1 rfl rfl,
   (loadKeys_never_raises dec0 (sN (FileState.content "x"))).2.2.2.1
     "x" rfl rfl rfl,
   (loadKeys_never_raises dec1 (sN (FileState.content "x"))).2.2.2.2.1
     "x" [rec0] rfl rfl rfl⟩

/-- C4: after a successful `saveKeys c`, a subsequent `loadKeys` in the same
process returns exactly `c` from the cache, with the state (including the
file-read counter) untouched and for every decrypt function — no file I/O
happens. -/
theorem saveKeys_then_loadKeys (dec : String → Option (List KeyRecord))
    (enc : List KeyRecord → String) (failFile : FileState) (s : StoreState)
    (c : List KeyRecord) :
    loadKeys dec (saveKeys enc true failFile s c).1 =
      ((saveKeys enc true failFile s c).1, c) := by
  simp [saveKeys, loadKeys]

/-- C8: a failed file write leaves the in-memory cache unchanged — the
cache is assigned the new collection only on the success path. -/
theorem saveKeys_cache_discipline (enc : List KeyRecord → String)
    (failFile : FileState) (s : StoreState) (keys : List KeyRecord) :
    (saveKeys enc false failFile s keys).1.keysCache = s.keysCache ∧
    (saveKeys enc true failFile s keys).1.keysCache = some keys := by
  simp [saveKeys]

/-- C7: `detectKeyType` (a total function on all strings, hence
deterministic) tests the four markers as substrings in the fixed source
order `ssh-rsa`, `ssh-dss`, `ecdsa-sha2`, `ssh-ed25519`, returns the family
of the first matching marker, and returns `Unknown` when none matches. -/
theorem detectKeyType_priority (s : String) :
    (containsStr s "ssh-rsa" = true → detectKeyType s = "RSA") ∧
    (containsStr s "ssh-rsa" = false → containsStr s "ssh-dss" = true →
      detectKeyType s = "DSA") ∧
    (containsStr s "ssh-rsa" = false → containsStr s "ssh-dss" = false →
      containsStr s "ecdsa-sha2" = true → detectKeyType s = "ECDSA") ∧
    (containsStr s "ssh-rsa" = false → containsStr s "ssh-dss" = false →
      containsStr s "ecdsa-sha2" = false →
      containsStr s "ssh-ed25519" = true → detectKeyType s = "Ed25519") ∧
    (containsStr s "ssh-rsa" = false → containsStr s "ssh-dss" = false →
      containsStr s "ecdsa-sha2" = false →
      containsStr s "ssh-ed25519" = false → detectKeyType s = "Unknown") := by
  refine ⟨?_, ?_, ?_, ?_, ?_⟩ <;> intros <;> simp_all [detectKeyType]

/-- Witness for C7: the priority theorem applied at concrete key texts. -/
theorem detectKeyType_priority_w :
    detectKeyType "ssh-rsa AAAAB3NzaC1yc2E" = "RSA" ∧
    detectKeyType "ssh-ed25519 AAAAC3NzaC1lZDI1NTE5" = "Ed25519" ∧
    detectKeyType "garbage" = "Unknown" :=
  ⟨(detectKeyType_priority "ssh-rsa AAAAB3NzaC1yc2E").1 (by decide),
   (detectKeyType_priority "ssh-ed25519 AAAAC3NzaC1lZDI1NTE5").2.2.2.1
     (by decide) (by decide) (by decide) (by decide),
   (detectKeyType_priority "garbage").2.2.2.2
     (by decide) (by decide) (by decide) (by decide)⟩

/-- C9: both derivation paths are deterministic (pure functions of their
input), hash the input concatenated with a fixed domain-separation string,
produce a fixed-length 32-entry key whenever the digest function does, and
use distinct domain-separation strings, so that for any injective digest a
password equal to the machine id still yields a different key. -/
theorem derivation_domain_separation (H : List Char → List Nat)
    (hlen : ∀ x, (H x).length = 32) (hinj : Function.Injective H)
    (p m : List Char) :
    deriveKeyFromPassword H p = H (p ++ passwordSalt) ∧
    getMachineKey H m = H (m ++ machineSalt) ∧
    passwordSalt ≠ machineSalt ∧
    (deriveKeyFromPassword H p).length = 32 ∧
    (getMachineKey H m).length = 32 ∧
    (p = m → deriveKeyFromPassword H p ≠ getMachineKey H m) := by
  refine ⟨rfl, rfl, by decide, hlen _, hlen _, ?_⟩
  intro hpm heq
  subst hpm
  have h2 := hinj heq
  simp only [List.append_cancel_left_eq] at h2
  exact absurd h2 (by decide)

/-- Witness for C9: the derivation theorem at a concrete digest function
and a concrete password equal to the machine id. -/
theorem derivation_domain_separation_w :
    deriveKeyFromPassword witnessHash (String.toList "box") =
      witnessHash (String.toList "box" ++ passwordSalt) ∧
    getMachineKey witnessHash (String.toList "box") =
      witnessHash (String.toList "box" ++ machineSalt) ∧
    passwordSalt ≠ machineSalt ∧
    (deriveKeyFromPassword witnessHash (String.toList "box")).length = 32 ∧
    (getMachineKey witnessHash (String.toList "box")).length = 32 ∧
    (String.toList "box" = String.toList "box" →
      deriveKeyFromPassword witnessHash (String.toList "box") ≠
        getMachineKey witnessHash (String.toList "box")) :=
  derivation_domain_separation witnessHash witnessHash_length
    witnessHash_injective (String.toList "box") (String.toList "box")

/-- C5: an `editKey` or `deleteKey` whose id is absent from the collection
reports not-found and aborts: the store state — cached collection and file
alike — is returned unchanged (in particular deleting an already-deleted id
reports not-found again). -/
theorem absent_id_aborts (dec : String → Option (List KeyRecord))
    (enc : List KeyRecord → String) (writeOk : Bool) (failFile : FileState)
    (o : EditOptions) (iUpd : Updates) (now : String) (force confirm : Bool)
    (id : String) (s : StoreState) (ks : List KeyRecord)
    (hc : s.keysCache = some ks) (hid : ∀ k ∈ ks, k.id ≠ id) :
    editKey dec enc writeOk failFile o iUpd now id s =
      (s, EditResult.notFound) ∧
    deleteKey dec enc writeOk failFile force confirm id s =
      (s, DeleteResult.notFound) := by
  have hidx : (ks.findIdx fun k => k.id == id) = ks.length :=
    findIdx_all_false _ _ fun k hk => by
      simp only [beq_eq_false_iff_ne, ne_eq]
      exact hid k hk
  constructor
  · simp [editKey, loadKeys, hc, hidx]
  · simp [deleteKey, loadKeys, hc, hidx]

/-- Witness for C5: editing and deleting a missing id on a concrete
one-record store. -/
theorem absent_id_aborts_w :
    editKey dec0 enc0 true FileState.absent
      { name := some "n", tag := none, content := none }
      { name := none, tag := none, key := none } "2024-01-01" "missing"
      { keysCache := some [rec0], file := FileState.content "enc",
        reads := 0, writes := 0 } =
      ({ keysCache := some [rec0], file := FileState.content "enc",
         reads := 0, writes := 0 }, EditResult.notFound) ∧
    deleteKey dec0 enc0 true FileState.absent true true "missing"
      { keysCache := some [rec0], file := FileState.content "enc",
        reads := 0, writes := 0 } =
      ({ keysCache := some [rec0], file := FileState.content "enc",
         reads := 0, writes := 0 }, DeleteResult.notFound) :=
  absent_id_aborts dec0 enc0 true FileState.absent
    { name := some "n", tag := none, content := none }
    { name := none, tag := none, key := none } "2024-01-01" true true
    "missing"
    { keysCache := some [rec0], file := FileState.content "enc",
      reads := 0, writes := 0 } [rec0] rfl (by decide)

/-- C6: on an existing record, `editKey` (non-interactive path) overwrites
exactly the name, tag and key-material fields named in the update object,
stamps `last_modified` with the current time, leaves `id` and `created`
unchanged, and does not recompute `key_type` even when the key material
changes: the whole operation replaces the found record with
`applyUpdates record (buildUpdates o) now` and saves once, and
`applyUpdates` provably preserves `id`, `created` and `key_type` while
setting only the named fields and `last_modified`. -/
theorem editKey_frame (dec : String → Option (List KeyRecord))
    (enc : List KeyRecord → String) (failFile : FileState) (o : EditOptions)
    (iUpd : Updates) (now : String) (id : String) (s : StoreState)
    (ks : List KeyRecord) (hc : s.keysCache = some ks)
    (hi : (ks.findIdx fun k => k.id == id) < ks.length)
    (ho : (truthy o.name || truthy o.tag || truthy o.content) = true) :
    editKey dec enc true failFile o iUpd now id s =
      ({ keysCache := some (ks.set (ks.findIdx fun k => k.id == id)
            (applyUpdates
              (ks.get ⟨ks.findIdx fun k => k.id == id, hi⟩)
              (buildUpdates o) now))
         file := FileState.content (enc
            (ks.set (ks.findIdx fun k => k.id == id)
              (applyUpdates
                (ks.get ⟨ks.findIdx fun k => k.id == id, hi⟩)
                (buildUpdates o) now)))
         reads := s.reads
         writes := s.writes + 1 }, EditResult.edited) ∧
    (∀ k u, (applyUpdates k u now).id = k.id ∧
      (applyUpdates k u now).created = k.created ∧
      (applyUpdates k u now).key_type = k.key_type ∧
      (applyUpdates k u now).last_modified = now ∧
      (u.name = none → (applyUpdates k u now).name = k.name) ∧
      (∀ n, u.name = some n → (applyUpdates k u now).name = n) ∧
      (u.tag = none → (applyUpdates k u now).tag = k.tag) ∧
      (∀ t, u.tag = some t → (applyUpdates k u now).tag = t) ∧
      (u.key = none → (applyUpdates k u now).key = k.key) ∧
      (∀ c, u.key = some c → (applyUpdates k u now).key = c)) := by
  constructor
  · have hguard :
        (!truthy o.name && !truthy o.tag && !truthy o.content) = false := by
      revert ho
      cases truthy o.name <;> cases truthy o.tag <;>
        cases truthy o.content <;> simp
    simp [editKey, loadKeys, hc, hguard, hi, saveKeys]
  · intro k u
    rcases u with ⟨un, ut, uk⟩
    rcases un with _ | n <;> rcases ut with _ | t <;> rcases uk with _ | c <;>
      simp [applyUpdates]

/-- Witness for C6: editing the key material of a concrete record leaves
its `key_type` stale, stamps `last_modified`, and preserves `id` and
`created`. -/
theorem editKey_frame_w :
    editKey dec0 enc0 true FileState.absent
      { name := none, tag := none, content := some "ssh-ed25519 BBBB" }
      { name := none, tag := none, key := none } "2024-01-01" "id-0" s1 =
      ({ keysCache := some ([rec0].set ([rec0].findIdx fun k => k.id == "id-0")
            (applyUpdates
              ([rec0].get ⟨[rec0].findIdx fun k => k.id == "id-0", rec0_found⟩)
              (buildUpdates
                { name := none, tag := none,
                  content := some "ssh-ed25519 BBBB" }) "2024-01-01"))
         file := FileState.content (enc0
            ([rec0].set ([rec0].findIdx fun k => k.id == "id-0")
              (applyUpdates
                ([rec0].get ⟨[rec0].findIdx fun k => k.id == "id-0", rec0_found⟩)
                (buildUpdates
                  { name := none, tag := none,
                    content := some "ssh-ed25519 BBBB" }) "2024-01-01")))
         reads := 0
         writes := 1 }, EditResult.edited) ∧
    (∀ k u, (applyUpdates k u "2024-01-01").id = k.id ∧
      (applyUpdates k u "2024-01-01").created = k.created ∧
      (applyUpdates k u "2024-01-01").key_type = k.key_type ∧
      (applyUpdates k u "2024-01-01").last_modified = "2024-01-01" ∧
      (u.name = none → (applyUpdates k u "2024-01-01").name = k.name) ∧
      (∀ n, u.name = some n → (applyUpdates k u "2024-01-01").name = n) ∧
      (u.tag = none → (applyUpdates k u "2024-01-01").tag = k.tag) ∧
      (∀ t, u.tag = some t → (applyUpdates k u "2024-01-01").tag = t) ∧
      (u.key = none → (applyUpdates k u "2024-01-01").key = k.key) ∧
      (∀ c, u.key = some c → (applyUpdates k u "2024-01-01").key = c)) :=
  editKey_frame dec0 enc0 FileState.absent
    { name := none, tag := none, content := some "ssh-ed25519 BBBB" }
    { name := none, tag := none, key := none } "2024-01-01" "id-0" s1 [rec0]
    rfl rec0_found (by decide)

/-- C3 counterexample: importing the same candidate twice into an empty
store reports `imported = 1, duplicates = 1`, although no record of the
collection snapshot loaded before the batch matches the candidate (the
snapshot is empty) — so the claimed "duplicate exactly when some existing
record matches" fails — and the appended record's `created` is the
candidate's own timestamp, not a fresh one. -/
theorem importFromFile_snapshot_cex :
    (importFromFile dec0 enc0 true FileState.absent idGen0 "2024-01-01"
      (some [kd0, kd0]) s0).2 = ImportResult.done 1 1 ∧
    ((loadKeys dec0 s0).2.any fun ex =>
      ex.key == kd0.key || ex.name == kd0.name) = false ∧
    (importFromFile dec0 enc0 true FileState.absent idGen0 "2024-01-01"
      (some [kd0, kd0]) s0).1.keysCache =
      some [mkImported idGen0 "2024-01-01" 0 kd0] ∧
    (mkImported idGen0 "2024-01-01" 0 kd0).created = "2020-01-01" ∧
    ("2020-01-01" : String) ≠ "2024-01-01" := by
  refine ⟨rfl, rfl, rfl, rfl, by decide⟩

/-- C3 (amended): for every batch processed by `importFromFile`, a
candidate is a duplicate exactly when some record of the evolving
collection — the pre-batch records together with the non-duplicates
appended earlier in the same batch — has equal key material or equal name
(the `importMergeSpec` fold); every non-duplicate is appended with a fresh
generated id and `last_modified` set to the import time, while `created`
is taken from the candidate when present and non-empty and otherwise set
to the import time; every candidate is counted exactly once; and
exactly one save commits the whole batch (the write counter moves by
one). -/
theorem importFromFile_evolving (dec : String → Option (List KeyRecord))
    (enc : List KeyRecord → String) (failFile : FileState)
    (idGen : Nat → String) (now : String) (kds : List ImportKeyData)
    (s : StoreState) (ks : List KeyRecord) (hc : s.keysCache = some ks) :
    importFromFile dec enc true failFile idGen now (some kds) s =
      ({ keysCache := some (importMergeSpec idGen now ks kds).1
         file := FileState.content (enc (importMergeSpec idGen now ks kds).1)
         reads := s.reads
         writes := s.writes + 1 },
       ImportResult.done (importMergeSpec idGen now ks kds).2.1
         (importMergeSpec idGen now ks kds).2.2) ∧
    (importMergeSpec idGen now ks kds).2.1 +
      (importMergeSpec idGen now ks kds).2.2 = kds.length ∧
    (∀ n kd, (mkImported idGen now n kd).id = idGen n ∧
      (mkImported idGen now n kd).last_modified = now ∧
      (kd.created = none → (mkImported idGen now n kd).created = now) ∧
      (∀ c, kd.created = some c → c ≠ "" →
        (mkImported idGen now n kd).created = c)) := by
  have hloop := importLoop_eq_foldl idGen now kds
    { coll := ks, fresh := 0, imported := 0, duplicates := 0 }
  refine ⟨?_, ?_, ?_⟩
  · simp only [importFromFile, loadKeys, hc, importMergeSpec_eq_foldl]
    simp only at hloop
    simp [hloop, saveKeys]
  · simp only [importMergeSpec_eq_foldl]
    have hcnt := mergeStep_counts idGen now kds
      { coll := ks, fresh := 0, imported := 0, duplicates := 0 }
    simpa using hcnt
  · intro n kd
    refine ⟨rfl, rfl, ?_, ?_⟩
    · intro h
      simp [mkImported, jsOrStr, h]
    · intro c hcr hne
      simp [mkImported, jsOrStr, hcr, hne]

/-- Witness for C3 (amended): a concrete two-candidate batch against a
one-record store. -/
theorem importFromFile_evolving_w :
    importFromFile dec0 enc0 true FileState.absent idGen0 "2024-01-01"
      (some [kd0, kd0]) s1 =
      ({ keysCache :=
           some (importMergeSpec idGen0 "2024-01-01" [rec0] [kd0, kd0]).1
         file := FileState.content (enc0
           (importMergeSpec idGen0 "2024-01-01" [rec0] [kd0, kd0]).1)
         reads := 0
         writes := 1 },
       ImportResult.done
         (importMergeSpec idGen0 "2024-01-01" [rec0] [kd0, kd0]).2.1
         (importMergeSpec idGen0 "2024-01-01" [rec0] [kd0, kd0]).2.2) ∧
    (importMergeSpec idGen0 "2024-01-01" [rec0] [kd0, kd0]).2.1 +
      (importMergeSpec idGen0 "2024-01-01" [rec0] [kd0, kd0]).2.2 = 2 ∧
    (∀ n kd, (mkImported idGen0 "2024-01-01" n kd).id = idGen0 n ∧
      (mkImported idGen0 "2024-01-01" n kd).last_modified = "2024-01-01" ∧
      (kd.created = none →
        (mkImported idGen0 "2024-01-01" n kd).created = "2024-01-01") ∧
      (∀ c, kd.created = some c → c ≠ "" →
        (mkImported idGen0 "2024-01-01" n kd).created = c)) :=
  importFromFile_evolving dec0 enc0 FileState.absent idGen0 "2024-01-01"
    [kd0, kd0] s1 [rec0] rfl

/-- C10: neither `importFromDirectory` nor `importFromScan` performs any
duplicate check: every readable `.pub` candidate (respectively every
selected scanned key) is appended and counted as imported, for every
pre-existing collection `ks` — including one already holding a record with
identical name or key material. -/
theorem imports_no_duplicate_check (dec : String → Option (List KeyRecord))
    (enc : List KeyRecord → String) (failFile : FileState)
    (idGen : Nat → String) (now : String)
    (dirFiles : List (String × Option String))
    (scanned selected : List ScannedKey) (s : StoreState)
    (ks : List KeyRecord) (hc : s.keysCache = some ks)
    (hsel : selected ≠ [] → scanned ≠ []) :
    ((importFromDirectory dec enc true failFile idGen now dirFiles s).1.keysCache
        = some (ks ++ dirRecords idGen now 0 (readablePubs dirFiles)) ∧
      (importFromDirectory dec enc true failFile idGen now dirFiles s).2 =
        (readablePubs dirFiles).length) ∧
    ((importFromScan dec enc true failFile idGen now scanned selected s).1.keysCache
        = some (ks ++ scanRecords idGen now 0 selected) ∧
      (importFromScan dec enc true failFile idGen now scanned selected s).2 =
        selected.length) := by
  constructor
  · by_cases hp : (dirFiles.filter fun f => f.1.endsWith ".pub").isEmpty
    · have hnil : (dirFiles.filter fun f => f.1.endsWith ".pub") = [] :=
        List.isEmpty_iff.mp hp
      simp [importFromDirectory, hp, readablePubs, hnil, hc, dirRecords]
    · simp [importFromDirectory, hp, loadKeys, hc, dirLoop_eq, saveKeys,
        readablePubs]
  · by_cases hs : scanned.isEmpty
    · have hsel2 : selected = [] := by
        by_contra hne
        exact (hsel hne) (List.isEmpty_iff.mp hs)
      subst hsel2
      simp [importFromScan, hs, hc, scanRecords]
    · by_cases hs2 : selected.isEmpty
      · have : selected = [] := List.isEmpty_iff.mp hs2
        subst this
        simp [importFromScan, hs, hc, scanRecords]
      · simp [importFromScan, hs, hs2, loadKeys, hc, scanLoop_eq, saveKeys]

/-- Witness for C10: a directory with a readable `.pub` file whose content
equals an existing record's key material, an unreadable `.pub` file and a
non-`.pub` file; and a scan selection whose name matches an existing
record. -/
theorem imports_no_duplicate_check_w :
    ((importFromDirectory dec0 enc0 true FileState.absent idGen0 "2024-01-01"
        [("a.pub", some "ssh-rsa AAAA"), ("skip.txt", some "x"),
         ("bad.pub", none)] s1).1.keysCache
        = some ([rec0] ++ dirRecords idGen0 "2024-01-01" 0
            (readablePubs [("a.pub", some "ssh-rsa AAAA"),
              ("skip.txt", some "x"), ("bad.pub", none)])) ∧
      (importFromDirectory dec0 enc0 true FileState.absent idGen0 "2024-01-01"
        [("a.pub", some "ssh-rsa AAAA"), ("skip.txt", some "x"),
         ("bad.pub", none)] s1).2 =
        (readablePubs [("a.pub", some "ssh-rsa AAAA"),
          ("skip.txt", some "x"), ("bad.pub", none)]).length) ∧
    ((importFromScan dec0 enc0 true FileState.absent idGen0 "2024-01-01"
        [⟨"GitHub", "ssh-rsa AAAA", "RSA"⟩]
        [⟨"GitHub", "ssh-rsa AAAA", "RSA"⟩] s1).1.keysCache
        = some ([rec0] ++ scanRecords idGen0 "2024-01-01" 0
            [⟨"GitHub", "ssh-rsa AAAA", "RSA"⟩]) ∧
      (importFromScan dec0 enc0 true FileState.absent idGen0 "2024-01-01"
        [⟨"GitHub", "ssh-rsa AAAA", "RSA"⟩]
        [⟨"GitHub", "ssh-rsa AAAA", "RSA"⟩] s1).2 = 1) :=
  imports_no_duplicate_check dec0 enc0 FileState.absent idGen0 "2024-01-01"
    [("a.pub", some "ssh-rsa AAAA"), ("skip.txt", some "x"),
     ("bad.pub", none)]
    [⟨"GitHub", "ssh-rsa AAAA", "RSA"⟩] [⟨"GitHub", "ssh-rsa AAAA", "RSA"⟩]
    s1 [rec0] rfl (fun _ => by decide)

end SshKim
